import Mathlib

/-!
Verification of the R-vine structure-matrix algebra of `rvine_matrix.cpp`.

Matrices (`Eigen::MatrixXi` / `MatrixXb`) are modelled as total functions
from a pair of indices to the entry; the dimension `d` is carried
separately.  The imperative loops of the C++ code are embedded as explicit
state-passing recursions (`mset`/`bset` model a single cell assignment),
and characterization lemmas recover closed forms of each loop's result.
-/

/-- An integer matrix (`Eigen::MatrixXi`), as a total function on indices. -/
abbrev MatI := Nat → Nat → Int

/-- A boolean matrix (`Eigen::Matrix<bool, Dynamic, Dynamic>`). -/
abbrev MatB := Nat → Nat → Bool

/-- One assignment `m(r, c) = v` to an integer matrix. -/
def mset (m : MatI) (r c : Nat) (v : Int) : MatI :=
  fun i j => if i = r ∧ j = c then v else m i j

/-- One assignment `m(r, c) = v` to a boolean matrix. -/
def bset (m : MatB) (r c : Nat) (v : Bool) : MatB :=
  fun i j => if i = r ∧ j = c then v else m i j

/-- Models `MatXi::Zero(d, d)` / `MatXi::Constant(d, d, 0)`. -/
def zeroMat : MatI := fun _ _ => 0

/-- Models `MatXb::Constant(d, d, false)`. -/
def falseMat : MatB := fun _ _ => false

/-- Eigen `m.colwise().reverse()`: reverses every column of a `d`-row matrix. -/
def colwiseReverse (d : Nat) (m : MatI) : MatI :=
  fun i j => m (d - 1 - i) j

/-- Eigen `m.diagonal()` of a `d`-dimensional matrix, as a list. -/
def diagonalVec (d : Nat) (m : MatI) : List Int :=
  (List.range d).map (fun k => m k k)

/-- Models `RVineMatrix::get_order`:
`matrix_.colwise().reverse().diagonal().reverse()`. -/
def get_order (d : Nat) (m : MatI) : List Int :=
  (diagonalVec d (colwiseReverse d m)).reverse

/-- Models `relabel_one(x, old_labels, new_labels)`: linear scan through
`old_labels` for the first position holding `x`; returns the co-indexed
entry of `new_labels`, and `0` when the scan falls off the end.  (The C++
loop indexes both vectors in lockstep, so the paired structural recursion
is faithful whenever the two vectors have equal length, which every caller
guarantees.) -/
def relabel_one (x : Int) : List Int → List Int → Int
  | o :: os, n :: ns => if x = o then n else relabel_one x os ns
  | _, _ => 0

/-- Inner loop of `relabel_elements` at row `i`: iterations
`j = 0, …, n-1` assign `new_matrix(i, j) = relabel_one(matrix(i, j), …)`. -/
def relabelInner (matrix : MatI) (old_labels new_labels : List Int)
    (i : Nat) (acc : MatI) : Nat → MatI
  | 0 => acc
  | j + 1 =>
      mset (relabelInner matrix old_labels new_labels i acc j) i j
        (relabel_one (matrix i j) old_labels new_labels)

/-- Outer loop of `relabel_elements`: iterations `i = 0, …, n-1`, each
running the inner loop over `j = 0, …, d-i-1`. -/
def relabelOuter (d : Nat) (matrix : MatI) (old_labels new_labels : List Int)
    (acc : MatI) : Nat → MatI
  | 0 => acc
  | i + 1 =>
      relabelInner matrix old_labels new_labels i
        (relabelOuter d matrix old_labels new_labels acc i) (d - i)

/-- Models `relabel_elements(matrix, new_labels)`: derives
`old_labels = matrix.colwise().reverse().diagonal()`, starts from
`MatXi::Zero(d, d)` and assigns every triangular cell through
`relabel_one`. -/
def relabel_elements (d : Nat) (matrix : MatI) (new_labels : List Int) : MatI :=
  relabelOuter d matrix (diagonalVec d (colwiseReverse d matrix)) new_labels zeroMat d

/-- Modelled from the spec: `in_natural_order` "Builds a synthetic
new-label sequence `(d, d-1, ..., 1)`".  The helpers `stl_tools::seq_int`
(which produces `1, …, d`) and `stl_tools::reverse` are not among the
sources, so the resulting label vector is modelled directly as
`(1, …, d)` reversed. -/
def natural_new_labels (d : Nat) : List Int :=
  ((List.range d).map (fun k : Nat => (k : Int) + 1)).reverse

/-- Models `RVineMatrix::in_natural_order`: relabels the stored matrix with the
new labels `(d, d-1, …, 1)`. -/
def in_natural_order (d : Nat) (m : MatI) : MatI :=
  relabel_elements d m (natural_new_labels d)

/-- Inner loop of `get_max_matrix` at outer index `i`: iterations
`j = 0, …, n-1` assign
`max_matrix(i+1, j) = max(max_matrix(i, j), max_matrix(i+1, j))`
(the 2×1 block maximum `max_matrix.block(i, j, 2, 1).maxCoeff()`). -/
def maxInner (i : Nat) (acc : MatI) : Nat → MatI
  | 0 => acc
  | j + 1 =>
      let m := maxInner i acc j
      mset m (i + 1) j (max (m i j) (m (i + 1) j))

/-- Outer loop of `get_max_matrix`: iterations `i = 0, …, n-1`, each
running the inner loop over `j = 0, …, d-i-2`. -/
def maxOuter (d : Nat) (acc : MatI) : Nat → MatI
  | 0 => acc
  | i + 1 => maxInner i (maxOuter d acc i) (d - i - 1)

/-- Models `RVineMatrix::get_max_matrix`: starts from `in_natural_order()` and
runs the double loop (`i` from `0` to `d-2`). -/
def get_max_matrix (d : Nat) (m : MatI) : MatI :=
  maxOuter d (in_natural_order d m) (d - 1)

/-- One entry of `is_different.rowwise().any()` in `get_needed_hfunc1`:
row `r`, OR over columns `k = 0, …, i-1` of
`no_matrix(r, k) != j && max_matrix(r, k) == j`. -/
def hfunc1ColEntry (no mx : MatI) (jv : Int) (i r : Nat) : Bool :=
  (List.range i).any (fun k => decide (no r k ≠ jv) && decide (mx r k = jv))

/-- The block assignment `needed_hfunc1.block(0, i, j, 1) = …` of
`get_needed_hfunc1`: rows `r = 0, …, n-1` of column `i`. -/
def hfunc1SetCol (no mx : MatI) (jv : Int) (i : Nat) (acc : MatB) : Nat → MatB
  | 0 => acc
  | r + 1 =>
      bset (hfunc1SetCol no mx jv i acc r) r i (hfunc1ColEntry no mx jv i r)

/-- Outer loop of `get_needed_hfunc1`: iterations `i = 1, …, n`, each with
`j = d - i` filling rows `0, …, j-1` of column `i`. -/
def hfunc1Outer (d : Nat) (no mx : MatI) (acc : MatB) : Nat → MatB
  | 0 => acc
  | n + 1 =>
      hfunc1SetCol no mx ((d : Int) - (n + 1 : Nat)) (n + 1)
        (hfunc1Outer d no mx acc n) (d - (n + 1))

/-- Models `RVineMatrix::get_needed_hfunc1`: starts all-false and runs the loop
for `i = 1, …, d-2` over the natural-order and maximum matrices. -/
def get_needed_hfunc1 (d : Nat) (m : MatI) : MatB :=
  hfunc1Outer d (in_natural_order d m) (get_max_matrix d m) falseMat (d - 2)

/-- The block assignment `block(0, i, n, 1) = Constant(n, 1, true)`:
rows `r = 0, …, n-1` of column `i` are set to `true`. -/
def setColTrue (i : Nat) (acc : MatB) : Nat → MatB
  | 0 => acc
  | r + 1 => bset (setColTrue i acc r) r i true

/-- The diagonal check of `get_needed_hfunc2` at column `i` and row
`jm1 = j - 1`: `(is_mat_j && is_max_j).any()` over columns `k = 0, …, i-1`. -/
def hfunc2DiagEntry (no mx : MatI) (jv : Int) (jm1 i : Nat) : Bool :=
  (List.range i).any (fun k => decide (no jm1 k = jv) && decide (mx jm1 k = jv))

/-- Outer loop of `get_needed_hfunc2`: iterations `i = 1, …, n`; each fills
column `i` with `true` on rows `0, …, d-i-1` and then overwrites the
diagonal cell `(j-1, i)` with the coincidence check. -/
def hfunc2Outer (d : Nat) (no mx : MatI) (acc : MatB) : Nat → MatB
  | 0 => acc
  | n + 1 =>
      let i := n + 1
      bset (setColTrue i (hfunc2Outer d no mx acc n) (d - i)) (d - i - 1) i
        (hfunc2DiagEntry no mx ((d : Int) - i) (d - i - 1) i)

/-- Models `RVineMatrix::get_needed_hfunc2`: column 0 is set to `true` on rows
`0, …, d-2`, then the loop runs for `i = 1, …, d-2`. -/
def get_needed_hfunc2 (d : Nat) (m : MatI) : MatB :=
  hfunc2Outer d (in_natural_order d m) (get_max_matrix d m)
    (setColTrue 0 falseMat (d - 1)) (d - 2)

/-- First loop of `construct_d_vine_matrix`: iterations `i = 0, …, n-1`
assign the diagonal `vine_matrix(d-1-i, i) = order(d-1-i)`. -/
def dvineDiag (order : List Int) (d : Nat) (acc : MatI) : Nat → MatI
  | 0 => acc
  | i + 1 =>
      mset (dvineDiag order d acc i) (d - 1 - i) i (order.getD (d - 1 - i) 0)

/-- Inner loop of the second loop of `construct_d_vine_matrix` at outer
index `i`: iterations `j = 0, …, n-1` assign
`vine_matrix(d-1-i, j) = order(i-j-1)`. -/
def dvineSubInner (order : List Int) (d i : Nat) (acc : MatI) : Nat → MatI
  | 0 => acc
  | j + 1 =>
      mset (dvineSubInner order d i acc j) (d - 1 - i) j (order.getD (i - j - 1) 0)

/-- Second loop of `construct_d_vine_matrix`: iterations `i = 1, …, n`,
each running the inner loop over `j = 0, …, i-1`. -/
def dvineSubOuter (order : List Int) (d : Nat) (acc : MatI) : Nat → MatI
  | 0 => acc
  | n + 1 => dvineSubInner order d (n + 1) (dvineSubOuter order d acc n) (n + 1)

/-- Models `RVineMatrix::construct_d_vine_matrix(order)`: starts from
`MatXi::Constant(d, d, 0)`, writes the diagonal, then the sub-diagonal
entries (`i = 1, …, d-1`). -/
def construct_d_vine_matrix (order : List Int) : MatI :=
  dvineSubOuter order order.length
    (dvineDiag order order.length zeroMat order.length) (order.length - 1)

/-! ### Characterization of `relabel_one` -/

lemma relabel_one_eq_of_first (old new : List Int) (h : old.length = new.length)
    (x : Int) (k : Nat) (hk : k < old.length)
    (hx : old.getD k 0 = x) (hfirst : ∀ j, j < k → old.getD j 0 ≠ x) :
    relabel_one x old new = new.getD k 0 := by
  induction old generalizing new k with
  | nil => exact absurd hk (by simp)
  | cons o os ih =>
    cases new with
    | nil => simp at h
    | cons n ns =>
      cases k with
      | zero =>
        simp only [List.getD_cons_zero] at hx
        simp [relabel_one, hx.symm]
      | succ k =>
        have ho : o ≠ x := by
          have := hfirst 0 (Nat.succ_pos k)
          simpa using this
        have hne : ¬(x = o) := fun hxo => ho hxo.symm
        simp only [List.getD_cons_succ] at hx
        simp only [relabel_one, if_neg hne, List.getD_cons_succ]
        exact ih ns (by simpa using h) k (by simpa using hk) hx
          (fun j hj => by simpa using hfirst (j + 1) (by omega))

lemma relabel_one_eq_zero (old new : List Int) (x : Int)
    (h : ∀ k, k < old.length → old.getD k 0 ≠ x) :
    relabel_one x old new = 0 := by
  induction old generalizing new with
  | nil => cases new <;> rfl
  | cons o os ih =>
    cases new with
    | nil => rfl
    | cons n ns =>
      have ho : o ≠ x := by simpa using h 0 (by simp)
      have hne : ¬(x = o) := fun hxo => ho hxo.symm
      simp only [relabel_one, if_neg hne]
      exact ih ns (fun k hk => by simpa using h (k + 1) (by simpa using hk))

lemma relabel_one_cases (old new : List Int) (h : old.length = new.length) (x : Int) :
    ((∀ k, k < old.length → old.getD k 0 ≠ x) ∧ relabel_one x old new = 0) ∨
    ∃ k, k < old.length ∧ old.getD k 0 = x ∧
      (∀ j, j < k → old.getD j 0 ≠ x) ∧ relabel_one x old new = new.getD k 0 := by
  induction old generalizing new with
  | nil => exact Or.inl ⟨fun k hk => absurd hk (by simp), by cases new <;> rfl⟩
  | cons o os ih =>
    cases new with
    | nil => simp at h
    | cons n ns =>
      by_cases hxo : x = o
      · exact Or.inr ⟨0, by simp, by simp [hxo.symm],
          fun j hj => absurd hj (by omega), by simp [relabel_one, hxo]⟩
      · rcases ih ns (by simpa using h) with ⟨hno, h0⟩ | ⟨k, hk1, hx, hfirst, hval⟩
        · refine Or.inl ⟨?_, by simp [relabel_one, hxo, h0]⟩
          intro k hk
          cases k with
          | zero => simpa using fun ho => hxo ho.symm
          | succ k => simpa using hno k (by simpa using hk)
        · refine Or.inr ⟨k + 1, by simpa using hk1,
            by simpa using hx, ?_, by simp [relabel_one, hxo, hval]⟩
          intro j hj
          cases j with
          | zero => simpa using fun ho => hxo ho.symm
          | succ j => simpa using hfirst j (by omega)

/-! ### Characterization of `relabel_elements` and `in_natural_order` -/

lemma relabelInner_apply (matrix : MatI) (ol nl : List Int) (i : Nat) (acc : MatI)
    (n r c : Nat) :
    relabelInner matrix ol nl i acc n r c =
      if r = i ∧ c < n then relabel_one (matrix r c) ol nl else acc r c := by
  induction n with
  | zero => simp [relabelInner]
  | succ n ih =>
    simp only [relabelInner, mset]
    by_cases hcell : r = i ∧ c = n
    · simp [hcell.1, hcell.2]
    · rw [if_neg hcell, ih]
      by_cases hin : r = i ∧ c < n
      · rw [if_pos hin, if_pos ⟨hin.1, by omega⟩]
      · rw [if_neg hin, if_neg (fun hin' => by
          rcases hin' with ⟨h1, h2⟩
          exact hcell ⟨h1, by
            rcases Nat.lt_succ_iff_lt_or_eq.mp h2 with h | h
            · exact absurd ⟨h1, h⟩ hin
            · exact h⟩)]

lemma relabelOuter_apply (d : Nat) (matrix : MatI) (ol nl : List Int) (acc : MatI)
    (n r c : Nat) :
    relabelOuter d matrix ol nl acc n r c =
      if r < n ∧ c < d - r then relabel_one (matrix r c) ol nl else acc r c := by
  induction n with
  | zero => simp [relabelOuter]
  | succ n ih =>
    simp only [relabelOuter]
    rw [relabelInner_apply]
    by_cases hrow : r = n ∧ c < d - n
    · rw [if_pos hrow, if_pos ⟨by omega, by omega⟩]
    · rw [if_neg hrow, ih]
      by_cases hin : r < n ∧ c < d - r
      · rw [if_pos hin, if_pos ⟨by omega, hin.2⟩]
      · rw [if_neg hin, if_neg (fun hin' => by
          rcases hin' with ⟨h1, h2⟩
          rcases Nat.lt_succ_iff_lt_or_eq.mp h1 with h | h
          · exact hin ⟨h, h2⟩
          · exact hrow ⟨h, by omega⟩)]

lemma relabel_elements_apply (d : Nat) (matrix : MatI) (nl : List Int) (r c : Nat) :
    relabel_elements d matrix nl r c =
      if r < d ∧ c < d - r then
        relabel_one (matrix r c) (diagonalVec d (colwiseReverse d matrix)) nl
      else 0 := by
  rw [relabel_elements, relabelOuter_apply]
  rfl

lemma diagonalVec_length (d : Nat) (m : MatI) : (diagonalVec d m).length = d := by
  simp [diagonalVec]

lemma antiDiag_getD (d : Nat) (m : MatI) (k : Nat) (hk : k < d) :
    (diagonalVec d (colwiseReverse d m)).getD k 0 = m (d - 1 - k) k := by
  simp [diagonalVec, colwiseReverse, List.getD_eq_getElem?_getD, List.getElem?_map,
    List.getElem?_range, hk]

lemma natural_new_labels_length (d : Nat) : (natural_new_labels d).length = d := by
  rw [natural_new_labels, List.length_reverse, List.length_map, List.length_range]

lemma natural_new_labels_getD (d k : Nat) (hk : k < d) :
    (natural_new_labels d).getD k 0 = (d : Int) - k := by
  have hlen : ((List.range d).map (fun k : Nat => (k : Int) + 1)).length = d := by
    rw [List.length_map, List.length_range]
  have h1 : k < ((List.range d).map (fun k : Nat => (k : Int) + 1)).reverse.length := by
    rw [List.length_reverse, hlen]; exact hk
  rw [natural_new_labels, List.getD_eq_getElem _ 0 h1, List.getElem_reverse,
    List.getElem_map, List.getElem_range, hlen]
  omega

/-- C1: for a structure matrix with pairwise-distinct diagonal labels (and
triangular entries drawn from those labels), the diagonal of
`in_natural_order`, read from the bottom row upward, is `(d, d-1, …, 1)`:
cell `(d-1-i, i)` holds `d - i`. -/
theorem C1_natural_order_diagonal (d : Nat) (m : MatI)
    (hdisc : ∀ i, i < d → ∀ j, j < d → i ≠ j → m (d - 1 - i) i ≠ m (d - 1 - j) j)
    (htri : ∀ r, r < d → ∀ c, c < d - r → ∃ k, k < d ∧ m r c = m (d - 1 - k) k)
    (i : Nat) (hi : i < d) :
    in_natural_order d m (d - 1 - i) i = (d : Int) - i := by
  rw [in_natural_order, relabel_elements_apply, if_pos ⟨by omega, by omega⟩]
  have hdm : m (d - 1 - i) i = (diagonalVec d (colwiseReverse d m)).getD i 0 :=
    (antiDiag_getD d m i hi).symm
  rw [hdm, relabel_one_eq_of_first _ _ (by rw [diagonalVec_length, natural_new_labels_length])
    _ i (by rw [diagonalVec_length]; exact hi) rfl
    (fun j hj => by
      rw [antiDiag_getD d m j (by omega), antiDiag_getD d m i hi]
      exact hdisc j (by omega) i hi (by omega))]
  exact natural_new_labels_getD d i hi

/-- A concrete 3-dimensional structure matrix (the D-vine on `1,2,3`),
used as input for witnesses. -/
def mEx3 : MatI := fun r c =>
  (([[2, 1, 1], [1, 2, 0], [3, 0, 0]] : List (List Int)).getD r []).getD c 0

theorem C1_witness :
    (∀ i, i < 3 → ∀ j, j < 3 → i ≠ j → mEx3 (3 - 1 - i) i ≠ mEx3 (3 - 1 - j) j) ∧
    (∀ r, r < 3 → ∀ c, c < 3 - r → ∃ k, k < 3 ∧ mEx3 r c = mEx3 (3 - 1 - k) k) ∧
    in_natural_order 3 mEx3 (3 - 1 - 1) 1 = (3 : Int) - 1 :=
  ⟨by decide, by decide,
    C1_natural_order_diagonal 3 mEx3 (by decide) (by decide) 1 (by decide)⟩

/-! ### Idempotence of the natural-order transformation -/

lemma antiDiag_natural_getD (d : Nat) (m : MatI) (k : Nat) (hk : k < d) :
    (diagonalVec d (colwiseReverse d (in_natural_order d m))).getD k 0 =
      relabel_one ((diagonalVec d (colwiseReverse d m)).getD k 0)
        (diagonalVec d (colwiseReverse d m)) (natural_new_labels d) := by
  rw [antiDiag_getD d _ k hk, in_natural_order, relabel_elements_apply,
    if_pos ⟨by omega, by omega⟩, antiDiag_getD d m k hk]

/-- C6: the natural-order transformation is idempotent; relabeling an
already relabeled matrix changes nothing, entrywise. -/
theorem C6_natural_order_idempotent (d : Nat) (m : MatI) (r c : Nat) :
    in_natural_order d (in_natural_order d m) r c = in_natural_order d m r c := by
  by_cases hrc : r < d ∧ c < d - r
  · have hN : in_natural_order d (in_natural_order d m) r c =
        relabel_one (in_natural_order d m r c)
          (diagonalVec d (colwiseReverse d (in_natural_order d m)))
          (natural_new_labels d) := by
      rw [in_natural_order, relabel_elements_apply, if_pos hrc]
    have hM : in_natural_order d m r c =
        relabel_one (m r c) (diagonalVec d (colwiseReverse d m))
          (natural_new_labels d) := by
      rw [in_natural_order, relabel_elements_apply, if_pos hrc]
    have hlen : (diagonalVec d (colwiseReverse d m)).length =
        (natural_new_labels d).length := by
      rw [diagonalVec_length, natural_new_labels_length]
    have hlen' : (diagonalVec d (colwiseReverse d (in_natural_order d m))).length =
        (natural_new_labels d).length := by
      rw [diagonalVec_length, natural_new_labels_length]
    rw [hN, hM]
    rcases relabel_one_cases _ _ hlen (m r c) with ⟨hno, h0⟩ | ⟨g, hg, hgx, hgfirst, hgval⟩
    · rw [h0]
      refine relabel_one_eq_zero _ _ 0 ?_
      intro k hk
      have hkd : k < d := by rwa [diagonalVec_length] at hk
      rw [antiDiag_natural_getD d m k hkd]
      rcases relabel_one_cases _ _ hlen
          ((diagonalVec d (colwiseReverse d m)).getD k 0) with ⟨hno', _⟩ | ⟨g, hg, _, _, hval⟩
      · exact absurd rfl (hno' k (by rw [diagonalVec_length]; exact hkd))
      · rw [hval, natural_new_labels_getD d g (by rwa [diagonalVec_length] at hg)]
        have : (g : Int) < d := by
          have := (by rwa [diagonalVec_length] at hg : g < d); omega
        omega
    · have hgd : g < d := by rwa [diagonalVec_length] at hg
      rw [hgval]
      rw [relabel_one_eq_of_first _ _ hlen' _ g (by rwa [diagonalVec_length]) ?_ ?_]
      · rw [antiDiag_natural_getD d m g hgd, hgx, hgval]
      · intro j hj
        have hjd : j < d := by omega
        rw [antiDiag_natural_getD d m j hjd]
        rcases relabel_one_cases _ _ hlen
            ((diagonalVec d (colwiseReverse d m)).getD j 0) with ⟨hno', _⟩ | ⟨k', hk', hxk', hfirst', hval'⟩
        · exact absurd rfl (hno' j (by rwa [diagonalVec_length]))
        · rw [hval']
          have hk'd : k' < d := by rwa [diagonalVec_length] at hk'
          have hk'j : k' ≤ j := by
            by_contra hlt
            exact hfirst' j (by omega) rfl
          rw [natural_new_labels_getD d k' hk'd, natural_new_labels_getD d g hgd]
          intro heq
          have : k' = g := by omega
          omega
  · rw [in_natural_order, relabel_elements_apply, if_neg hrc,
      in_natural_order, relabel_elements_apply, if_neg hrc]

/-! ### Characterization of `get_max_matrix` -/

/-- Closed form of the running column-wise maximum computed by the
`get_max_matrix` double loop (proof helper). -/
def maxEntry (d : Nat) (no : MatI) : Nat → Nat → Int
  | 0, j => no 0 j
  | r + 1, j =>
      if r + 1 + j ≤ d - 1 then max (maxEntry d no r j) (no (r + 1) j)
      else no (r + 1) j

lemma maxInner_apply (i : Nat) (acc : MatI) (n : Nat) : ∀ r c,
    maxInner i acc n r c =
      if r = i + 1 ∧ c < n then max (acc i c) (acc (i + 1) c) else acc r c := by
  induction n with
  | zero => intro r c; simp [maxInner]
  | succ n ih =>
    intro r c
    have h1 : maxInner i acc n i n = acc i n := by
      rw [ih, if_neg (by omega)]
    have h2 : maxInner i acc n (i + 1) n = acc (i + 1) n := by
      rw [ih, if_neg (by omega)]
    show mset (maxInner i acc n) (i + 1) n
        (max (maxInner i acc n i n) (maxInner i acc n (i + 1) n)) r c = _
    rw [mset, h1, h2]
    by_cases hcell : r = i + 1 ∧ c = n
    · rw [if_pos hcell, if_pos ⟨hcell.1, by omega⟩, hcell.2]
    · rw [if_neg hcell, ih r c]
      by_cases hin : r = i + 1 ∧ c < n
      · rw [if_pos hin, if_pos ⟨hin.1, by omega⟩]
      · rw [if_neg hin, if_neg (fun hin' => by
          rcases hin' with ⟨hr', hc'⟩
          rcases Nat.lt_succ_iff_lt_or_eq.mp hc' with h' | h'
          · exact hin ⟨hr', h'⟩
          · exact hcell ⟨hr', h'⟩)]

lemma maxOuter_apply (d : Nat) (acc : MatI) (n : Nat) : ∀ r c,
    maxOuter d acc n r c = if r ≤ n then maxEntry d acc r c else acc r c := by
  induction n with
  | zero =>
    intro r c
    by_cases hr : r ≤ 0
    · have : r = 0 := by omega
      subst this
      rw [if_pos (le_refl 0)]
      rfl
    · rw [if_neg hr]; rfl
  | succ n ih =>
    intro r c
    show maxInner n (maxOuter d acc n) (d - n - 1) r c = _
    rw [maxInner_apply]
    by_cases hr : r = n + 1 ∧ c < d - n - 1
    · rw [if_pos hr, ih n c, ih (n + 1) c, if_pos (le_refl n), if_neg (by omega),
        if_pos (by omega)]
      rcases hr with ⟨hr1, hr2⟩
      subst hr1
      show _ = maxEntry d acc (n + 1) c
      simp only [maxEntry]
      rw [if_pos (by omega)]
    · rw [if_neg hr, ih r c]
      by_cases hr2 : r ≤ n
      · rw [if_pos hr2, if_pos (by omega)]
      · rw [if_neg hr2]
        by_cases hr3 : r ≤ n + 1
        · have hreq : r = n + 1 := by omega
          have hc : ¬c < d - n - 1 := fun hc => hr ⟨hreq, hc⟩
          rw [if_pos hr3]
          subst hreq
          simp only [maxEntry]
          rw [if_neg (by omega)]
        · rw [if_neg hr3]

lemma get_max_matrix_apply (d : Nat) (m : MatI) (r c : Nat) (hr : r ≤ d - 1) :
    get_max_matrix d m r c = maxEntry d (in_natural_order d m) r c := by
  rw [get_max_matrix, maxOuter_apply, if_pos hr]

/-- C2: the maximum matrix agrees with the natural-order matrix on row 0
and satisfies the running column-wise maximum recurrence
`max_matrix(i, j) = max(max_matrix(i-1, j), natural_order_matrix(i, j))`
on every triangular cell with `i ≥ 1`. -/
theorem C2_max_matrix_recurrence (d : Nat) (m : MatI) :
    (∀ j, j ≤ d - 1 → get_max_matrix d m 0 j = in_natural_order d m 0 j) ∧
    (∀ i j, 1 ≤ i → i + j ≤ d - 1 →
      get_max_matrix d m i j =
        max (get_max_matrix d m (i - 1) j) (in_natural_order d m i j)) := by
  constructor
  · intro j hj
    rw [get_max_matrix_apply d m 0 j (by omega)]
    rfl
  · intro i j hi hij
    obtain ⟨i', rfl⟩ : ∃ i', i = i' + 1 := ⟨i - 1, by omega⟩
    rw [get_max_matrix_apply d m (i' + 1) j (by omega),
      get_max_matrix_apply d m (i' + 1 - 1) j (by omega)]
    simp only [maxEntry, Nat.add_sub_cancel]
    rw [if_pos (by omega)]

theorem C2_witness :
    get_max_matrix 3 mEx3 1 1 =
      max (get_max_matrix 3 mEx3 (1 - 1) 1) (in_natural_order 3 mEx3 1 1) :=
  (C2_max_matrix_recurrence 3 mEx3).2 1 1 (by decide) (by decide)

lemma maxEntry_le_succ (d : Nat) (no : MatI) (r j : Nat) (h : r + 1 + j ≤ d - 1) :
    maxEntry d no r j ≤ maxEntry d no (r + 1) j := by
  show maxEntry d no r j ≤ maxEntry d no (r + 1) j
  simp only [maxEntry]
  rw [if_pos h]
  exact le_max_left _ _

/-- C8: the maximum matrix is non-decreasing down every column of the
triangular region. -/
theorem C8_max_matrix_monotone (d : Nat) (m : MatI) (i i' j : Nat)
    (h1 : i + j ≤ d - 1) (h2 : i < i') (h3 : i' + j ≤ d - 1) :
    get_max_matrix d m i j ≤ get_max_matrix d m i' j := by
  rw [get_max_matrix_apply d m i j (by omega), get_max_matrix_apply d m i' j (by omega)]
  clear h1
  have key : ∀ n, i < n → n + j ≤ d - 1 →
      maxEntry d (in_natural_order d m) i j ≤ maxEntry d (in_natural_order d m) n j := by
    intro n
    induction n with
    | zero => intro h _; omega
    | succ n ih =>
      intro hlt hnj
      rcases Nat.lt_succ_iff_lt_or_eq.mp hlt with h' | h'
      · exact le_trans (ih h' (by omega)) (maxEntry_le_succ d _ n j hnj)
      · subst h'
        exact maxEntry_le_succ d _ i j hnj
  exact key i' h2 h3

theorem C8_witness : get_max_matrix 3 mEx3 0 0 ≤ get_max_matrix 3 mEx3 2 0 :=
  C8_max_matrix_monotone 3 mEx3 0 2 0 (by decide) (by decide) (by decide)

/-! ### Characterization of `construct_d_vine_matrix` -/

lemma dvineDiag_apply (order : List Int) (d : Nat) (acc : MatI) : ∀ n r c,
    dvineDiag order d acc n r c =
      if c < n ∧ r = d - 1 - c then order.getD r 0 else acc r c := by
  intro n
  induction n with
  | zero => intro r c; simp [dvineDiag]
  | succ n ih =>
    intro r c
    show mset (dvineDiag order d acc n) (d - 1 - n) n (order.getD (d - 1 - n) 0) r c = _
    rw [mset]
    by_cases hcell : r = d - 1 - n ∧ c = n
    · rw [if_pos hcell, if_pos ⟨by omega, by rw [hcell.2]; exact hcell.1⟩, hcell.1]
    · rw [if_neg hcell, ih r c]
      by_cases hin : c < n ∧ r = d - 1 - c
      · rw [if_pos hin, if_pos ⟨by omega, hin.2⟩]
      · rw [if_neg hin, if_neg (fun hin' => by
          rcases hin' with ⟨hc', hr'⟩
          rcases Nat.lt_succ_iff_lt_or_eq.mp hc' with h' | h'
          · exact hin ⟨h', hr'⟩
          · exact hcell ⟨by rw [← h']; exact hr', h'⟩)]

lemma dvineSubInner_apply (order : List Int) (d i : Nat) (acc : MatI) : ∀ n r c,
    dvineSubInner order d i acc n r c =
      if r = d - 1 - i ∧ c < n then order.getD (i - c - 1) 0 else acc r c := by
  intro n
  induction n with
  | zero => intro r c; simp [dvineSubInner]
  | succ n ih =>
    intro r c
    show mset (dvineSubInner order d i acc n) (d - 1 - i) n (order.getD (i - n - 1) 0) r c = _
    rw [mset]
    by_cases hcell : r = d - 1 - i ∧ c = n
    · rw [if_pos hcell, if_pos ⟨hcell.1, by omega⟩, hcell.2]
    · rw [if_neg hcell, ih r c]
      by_cases hin : r = d - 1 - i ∧ c < n
      · rw [if_pos hin, if_pos ⟨hin.1, by omega⟩]
      · rw [if_neg hin, if_neg (fun hin' => by
          rcases hin' with ⟨hr', hc'⟩
          rcases Nat.lt_succ_iff_lt_or_eq.mp hc' with h' | h'
          · exact hin ⟨hr', h'⟩
          · exact hcell ⟨hr', h'⟩)]

lemma dvineSubOuter_apply (order : List Int) (d : Nat) (acc : MatI) : ∀ n, n ≤ d - 1 → ∀ r c,
    dvineSubOuter order d acc n r c =
      if r + 1 < d ∧ d - 1 - r ≤ n ∧ c < d - 1 - r then order.getD (d - 2 - r - c) 0
      else acc r c := by
  intro n
  induction n with
  | zero => intro _ r c; rw [if_neg (by omega)]; rfl
  | succ n ih =>
    intro hn r c
    show dvineSubInner order d (n + 1) (dvineSubOuter order d acc n) (n + 1) r c = _
    rw [dvineSubInner_apply]
    by_cases hcell : r = d - 1 - (n + 1) ∧ c < n + 1
    · rw [if_pos hcell, if_pos (by omega)]
      have harg : n + 1 - c - 1 = d - 2 - r - c := by omega
      rw [harg]
    · rw [if_neg hcell, ih (by omega) r c]
      by_cases hin : r + 1 < d ∧ d - 1 - r ≤ n ∧ c < d - 1 - r
      · rw [if_pos hin, if_pos ⟨hin.1, by omega, hin.2.2⟩]
      · rw [if_neg hin, if_neg (by omega)]

lemma construct_d_vine_matrix_apply (order : List Int) (r c : Nat) :
    construct_d_vine_matrix order r c =
      if r + 1 < order.length ∧ c < order.length - 1 - r then
        order.getD (order.length - 2 - r - c) 0
      else if c < order.length ∧ r = order.length - 1 - c then order.getD r 0
      else 0 := by
  rw [construct_d_vine_matrix,
    dvineSubOuter_apply order order.length _ (order.length - 1) (le_refl _) r c]
  by_cases hA : r + 1 < order.length ∧ c < order.length - 1 - r
  · rw [if_pos (⟨hA.1, by omega, hA.2⟩ :
      r + 1 < order.length ∧ order.length - 1 - r ≤ order.length - 1 ∧
        c < order.length - 1 - r), if_pos hA]
  · rw [if_neg (by omega), if_neg hA,
      dvineDiag_apply order order.length zeroMat order.length r c]
    by_cases hB : c < order.length ∧ r = order.length - 1 - c
    · rw [if_pos hB, if_pos hB]
    · rw [if_neg hB, if_neg hB]; rfl

lemma get_order_getD (d : Nat) (m : MatI) (i : Nat) (hi : i < d) :
    (get_order d m).getD i 0 = m i (d - 1 - i) := by
  have hlen : (diagonalVec d (colwiseReverse d m)).length = d := diagonalVec_length _ _
  have hlen' : (diagonalVec d (colwiseReverse d m)).reverse.length = d := by
    rw [List.length_reverse, hlen]
  show (diagonalVec d (colwiseReverse d m)).reverse.getD i 0 = m i (d - 1 - i)
  rw [List.getD_eq_getElem _ 0 (by rw [hlen']; exact hi), List.getElem_reverse,
    ← List.getD_eq_getElem _ 0, hlen, antiDiag_getD d m (d - 1 - i) (by omega)]
  congr 1
  omega

lemma get_order_length (d : Nat) (m : MatI) : (get_order d m).length = d := by
  show (diagonalVec d (colwiseReverse d m)).reverse.length = d
  rw [List.length_reverse, diagonalVec_length]

/-- C5: constructing a D-vine matrix from a permutation `order` of
`1..d` and reading the order back with `get_order` returns `order`. -/
theorem C5_dvine_order_roundtrip (order : List Int)
    (hperm : order.Perm ((List.range order.length).map (fun k : Nat => (k : Int) + 1))) :
    get_order order.length (construct_d_vine_matrix order) = order := by
  apply List.ext_getElem
  · rw [get_order_length]
  · intro i h1 h2
    rw [← List.getD_eq_getElem _ 0 h1, ← List.getD_eq_getElem _ 0 h2,
      get_order_getD order.length _ i h2, construct_d_vine_matrix_apply,
      if_neg (by omega), if_pos ⟨by omega, by omega⟩]

theorem C5_witness :
    get_order 3 (construct_d_vine_matrix [2, 1, 3]) = [2, 1, 3] :=
  C5_dvine_order_roundtrip [2, 1, 3] (by decide)

/-- C7 counterexample: for `order = [1,2,3,4]`, the constructed matrix has
`4` (not `1`) at row 3, column 0, `1` (not `2`) at row 2, column 0, and
`3` (not `2`) at row 2, column 1. -/
theorem C7_counterexample :
    construct_d_vine_matrix [1, 2, 3, 4] 3 0 ≠ 1 ∧
    construct_d_vine_matrix [1, 2, 3, 4] 2 0 ≠ 2 ∧
    construct_d_vine_matrix [1, 2, 3, 4] 2 1 ≠ 2 := by decide

/-- C7 (amended): for `order = [1,2,3,4]`, every cell of
`construct_d_vine_matrix(order)` matches the §4.1 rule
(`order[d-1-i]` at cell `(d-1-i, i)`, `order[i-j-1]` at `(d-1-i, j)` for
`j < i`); in particular the diagonal read bottom-to-top is `(4,3,2,1)`,
row 3 holds `4` at column 0, and row 2 holds `1` at column 0 next to the
diagonal entry `3` at column 1. -/
theorem C7_dvine_concrete :
    (∀ i, i < 4 → construct_d_vine_matrix [1, 2, 3, 4] (4 - 1 - i) i =
      ([1, 2, 3, 4] : List Int).getD (4 - 1 - i) 0) ∧
    (∀ i, 1 ≤ i → i < 4 → ∀ j, j < i →
      construct_d_vine_matrix [1, 2, 3, 4] (4 - 1 - i) j =
        ([1, 2, 3, 4] : List Int).getD (i - j - 1) 0) ∧
    construct_d_vine_matrix [1, 2, 3, 4] 3 0 = 4 ∧
    construct_d_vine_matrix [1, 2, 3, 4] 2 0 = 1 ∧
    construct_d_vine_matrix [1, 2, 3, 4] 2 1 = 3 ∧
    (∀ r, r < 4 → ∀ c, c < 4 →
      construct_d_vine_matrix [1, 2, 3, 4] r c =
        (([[3, 2, 1, 1], [2, 1, 2, 0], [1, 3, 0, 0], [4, 0, 0, 0]] :
          List (List Int)).getD r []).getD c 0) :=
  ⟨by decide, by decide, by decide, by decide, by decide, by decide⟩

theorem C7_witness :
    construct_d_vine_matrix [1, 2, 3, 4] (4 - 1 - 0) 0 =
      ([1, 2, 3, 4] : List Int).getD (4 - 1 - 0) 0 :=
  C7_dvine_concrete.1 0 (by decide)

/-! ### Characterization of `get_needed_hfunc1` -/

lemma hfunc1SetCol_apply (no mx : MatI) (jv : Int) (i : Nat) (acc : MatB) : ∀ n r c,
    hfunc1SetCol no mx jv i acc n r c =
      if c = i ∧ r < n then hfunc1ColEntry no mx jv i r else acc r c := by
  intro n
  induction n with
  | zero => intro r c; simp [hfunc1SetCol]
  | succ n ih =>
    intro r c
    show bset (hfunc1SetCol no mx jv i acc n) n i (hfunc1ColEntry no mx jv i n) r c = _
    rw [bset]
    by_cases hcell : r = n ∧ c = i
    · rw [if_pos hcell, if_pos ⟨hcell.2, by omega⟩, hcell.1]
    · rw [if_neg hcell, ih r c]
      by_cases hin : c = i ∧ r < n
      · rw [if_pos hin, if_pos ⟨hin.1, by omega⟩]
      · rw [if_neg hin, if_neg (fun hin' => by
          rcases hin' with ⟨hc', hr'⟩
          rcases Nat.lt_succ_iff_lt_or_eq.mp hr' with h' | h'
          · exact hin ⟨hc', h'⟩
          · exact hcell ⟨h', hc'⟩)]

lemma hfunc1Outer_apply (d : Nat) (no mx : MatI) (acc : MatB) : ∀ n r c,
    hfunc1Outer d no mx acc n r c =
      if 1 ≤ c ∧ c ≤ n ∧ r < d - c then hfunc1ColEntry no mx ((d : Int) - c) c r
      else acc r c := by
  intro n
  induction n with
  | zero => intro r c; rw [if_neg (by omega)]; rfl
  | succ n ih =>
    intro r c
    show hfunc1SetCol no mx ((d : Int) - (n + 1 : Nat)) (n + 1)
        (hfunc1Outer d no mx acc n) (d - (n + 1)) r c = _
    rw [hfunc1SetCol_apply]
    by_cases hcell : c = n + 1 ∧ r < d - (n + 1)
    · rcases hcell with ⟨hc, hr⟩
      subst hc
      rw [if_pos ⟨rfl, hr⟩, if_pos ⟨by omega, le_refl (n + 1), hr⟩]
    · rw [if_neg hcell, ih r c]
      by_cases hin : 1 ≤ c ∧ c ≤ n ∧ r < d - c
      · rw [if_pos hin, if_pos ⟨hin.1, by omega, hin.2.2⟩]
      · rw [if_neg hin, if_neg (by omega)]

lemma get_needed_hfunc1_apply (d : Nat) (m : MatI) (r c : Nat) :
    get_needed_hfunc1 d m r c =
      if 1 ≤ c ∧ c ≤ d - 2 ∧ r < d - c then
        hfunc1ColEntry (in_natural_order d m) (get_max_matrix d m) ((d : Int) - c) c r
      else false := by
  rw [get_needed_hfunc1, hfunc1Outer_apply]
  by_cases h : 1 ≤ c ∧ c ≤ d - 2 ∧ r < d - c
  · rw [if_pos h, if_pos h]
  · rw [if_neg h, if_neg h]; rfl

/-- C4: for `d ≥ 3`, `get_needed_hfunc1` is true at `(r, i)` for
`1 ≤ i ≤ d-2`, `r < d - i`, exactly when some column `k < i` has
natural-order entry different from `j = d - i` while the maximum-matrix
entry equals `j`; every cell outside these positions is false. -/
theorem C4_hfunc1_rule (d : Nat) (m : MatI) (hd : 3 ≤ d) :
    (∀ i, 1 ≤ i → i ≤ d - 2 → ∀ r, r < d - i →
      (get_needed_hfunc1 d m r i = true ↔
        ∃ k, k < i ∧ in_natural_order d m r k ≠ (d : Int) - i ∧
          get_max_matrix d m r k = (d : Int) - i)) ∧
    (∀ r, r < d → ∀ c, c < d → (c = 0 ∨ d - 2 < c ∨ d - c ≤ r) →
      get_needed_hfunc1 d m r c = false) := by
  constructor
  · intro i h1 h2 r hr
    rw [get_needed_hfunc1_apply, if_pos ⟨h1, h2, hr⟩, hfunc1ColEntry]
    simp [List.any_eq_true, List.mem_range, Bool.and_eq_true, decide_eq_true_eq]
  · intro r hr c hc hcase
    rw [get_needed_hfunc1_apply, if_neg (by omega)]

/-- The D-vine matrix on four variables in order `1,2,3,4`, a concrete
structure matrix used as input for witnesses. -/
def mEx4 : MatI := construct_d_vine_matrix [1, 2, 3, 4]

theorem C4_witness :
    (get_needed_hfunc1 4 mEx4 1 1 = true ↔
      ∃ k, k < 1 ∧ in_natural_order 4 mEx4 1 k ≠ (4 : Int) - 1 ∧
        get_max_matrix 4 mEx4 1 k = (4 : Int) - 1) ∧
    get_needed_hfunc1 4 mEx4 3 1 = false :=
  ⟨(C4_hfunc1_rule 4 mEx4 (by decide)).1 1 (by decide) (by decide) 1 (by decide),
   (C4_hfunc1_rule 4 mEx4 (by decide)).2 3 (by decide) 1 (by decide)
     (Or.inr (Or.inr (by decide)))⟩

/-- The D-vine matrix on two variables, used for the degenerate-dimension
witness. -/
def mEx2 : MatI := construct_d_vine_matrix [2, 1]

/-- C10: `get_needed_hfunc1` has column 0 entirely false and the bottom
row (row `d-1`) entirely false, and for `d ≤ 2` the whole mask is false. -/
theorem C10_hfunc1_zero_boundary (d : Nat) (m : MatI) :
    (∀ r, get_needed_hfunc1 d m r 0 = false) ∧
    (∀ c, get_needed_hfunc1 d m (d - 1) c = false) ∧
    (d ≤ 2 → ∀ r c, get_needed_hfunc1 d m r c = false) := by
  refine ⟨?_, ?_, ?_⟩
  · intro r
    rw [get_needed_hfunc1_apply, if_neg (by omega)]
  · intro c
    rw [get_needed_hfunc1_apply, if_neg (by omega)]
  · intro hd r c
    rw [get_needed_hfunc1_apply, if_neg (by omega)]

theorem C10_witness : get_needed_hfunc1 2 mEx2 0 1 = false :=
  (C10_hfunc1_zero_boundary 2 mEx2).2.2 (by decide) 0 1

/-! ### Characterization of `get_needed_hfunc2` -/

lemma setColTrue_apply (i : Nat) (acc : MatB) : ∀ n r c,
    setColTrue i acc n r c = if c = i ∧ r < n then true else acc r c := by
  intro n
  induction n with
  | zero => intro r c; simp [setColTrue]
  | succ n ih =>
    intro r c
    show bset (setColTrue i acc n) n i true r c = _
    rw [bset]
    by_cases hcell : r = n ∧ c = i
    · rw [if_pos hcell, if_pos ⟨hcell.2, by omega⟩]
    · rw [if_neg hcell, ih r c]
      by_cases hin : c = i ∧ r < n
      · rw [if_pos hin, if_pos ⟨hin.1, by omega⟩]
      · rw [if_neg hin, if_neg (fun hin' => by
          rcases hin' with ⟨hc', hr'⟩
          rcases Nat.lt_succ_iff_lt_or_eq.mp hr' with h' | h'
          · exact hin ⟨hc', h'⟩
          · exact hcell ⟨h', hc'⟩)]

lemma hfunc2Outer_apply (d : Nat) (no mx : MatI) (acc : MatB) : ∀ n r c,
    hfunc2Outer d no mx acc n r c =
      if 1 ≤ c ∧ c ≤ n then
        (if r < d - c - 1 then true
         else if r = d - c - 1 then
           hfunc2DiagEntry no mx ((d : Int) - c) (d - c - 1) c
         else acc r c)
      else acc r c := by
  intro n
  induction n with
  | zero => intro r c; rw [if_neg (by omega)]; rfl
  | succ n ih =>
    intro r c
    show bset (setColTrue (n + 1) (hfunc2Outer d no mx acc n) (d - (n + 1)))
        (d - (n + 1) - 1) (n + 1)
        (hfunc2DiagEntry no mx ((d : Int) - (n + 1 : Nat)) (d - (n + 1) - 1) (n + 1))
        r c = _
    rw [bset]
    by_cases hA : r = d - (n + 1) - 1 ∧ c = n + 1
    · rcases hA with ⟨hr, hc⟩
      subst hc
      rw [if_pos ⟨hr, rfl⟩, if_pos ⟨by omega, le_refl (n + 1)⟩,
        if_neg (by omega), if_pos hr]
    · rw [if_neg hA, setColTrue_apply]
      by_cases hB : c = n + 1 ∧ r < d - (n + 1)
      · rcases hB with ⟨hc, hr⟩
        subst hc
        rw [if_pos ⟨rfl, hr⟩, if_pos ⟨by omega, le_refl (n + 1)⟩, if_pos (by omega)]
      · rw [if_neg hB, ih r c]
        by_cases hC : 1 ≤ c ∧ c ≤ n
        · have hC' : 1 ≤ c ∧ c ≤ n + 1 := ⟨hC.1, by omega⟩
          rw [if_pos hC, if_pos hC']
        · rw [if_neg hC]
          by_cases hD : 1 ≤ c ∧ c ≤ n + 1
          · have hc : c = n + 1 := by omega
            subst hc
            rw [if_pos hD, if_neg (by omega), if_neg (by omega)]
          · rw [if_neg hD]

lemma get_needed_hfunc2_apply (d : Nat) (m : MatI) (r c : Nat) :
    get_needed_hfunc2 d m r c =
      if 1 ≤ c ∧ c ≤ d - 2 then
        (if r < d - c - 1 then true
         else if r = d - c - 1 then
           hfunc2DiagEntry (in_natural_order d m) (get_max_matrix d m)
             ((d : Int) - c) (d - c - 1) c
         else false)
      else if c = 0 ∧ r < d - 1 then true else false := by
  rw [get_needed_hfunc2, hfunc2Outer_apply]
  by_cases h1 : 1 ≤ c ∧ c ≤ d - 2
  · rw [if_pos h1, if_pos h1]
    by_cases h2 : r < d - c - 1
    · rw [if_pos h2, if_pos h2]
    · rw [if_neg h2, if_neg h2]
      by_cases h3 : r = d - c - 1
      · rw [if_pos h3, if_pos h3]
      · rw [if_neg h3, if_neg h3, setColTrue_apply, if_neg (by omega)]; rfl
  · rw [if_neg h1, if_neg h1, setColTrue_apply]
    by_cases h2 : c = 0 ∧ r < d - 1
    · rw [if_pos h2, if_pos h2]
    · rw [if_neg h2, if_neg h2]; rfl

/-- C3: for `d ≥ 2`, `get_needed_hfunc2` has column 0 true exactly on rows
`0..d-2`; for `1 ≤ i ≤ d-2` (with `j = d - i`) column `i` is true on rows
`0..j-2`, its diagonal cell at row `j-1` is true exactly when some column
`k < i` has both natural-order and maximum-matrix entries equal to `j`,
and its rows from `j` on are false; all remaining columns are false. -/
theorem C3_hfunc2_rule (d : Nat) (m : MatI) (hd : 2 ≤ d) :
    (∀ r, r < d → get_needed_hfunc2 d m r 0 = decide (r < d - 1)) ∧
    (∀ i, 1 ≤ i → i ≤ d - 2 →
      (∀ r, r < d - i - 1 → get_needed_hfunc2 d m r i = true) ∧
      (get_needed_hfunc2 d m (d - i - 1) i = true ↔
        ∃ k, k < i ∧ in_natural_order d m (d - i - 1) k = (d : Int) - i ∧
          get_max_matrix d m (d - i - 1) k = (d : Int) - i) ∧
      (∀ r, d - i ≤ r → r < d → get_needed_hfunc2 d m r i = false)) ∧
    (∀ r, r < d → ∀ c, d - 1 ≤ c → c < d → get_needed_hfunc2 d m r c = false) := by
  refine ⟨?_, ?_, ?_⟩
  · intro r hr
    rw [get_needed_hfunc2_apply, if_neg (by omega)]
    by_cases h : r < d - 1
    · rw [if_pos ⟨rfl, h⟩]
      simp [h]
    · rw [if_neg (fun h' => h h'.2)]
      simp [h]
  · intro i h1 h2
    refine ⟨?_, ?_, ?_⟩
    · intro r hr
      rw [get_needed_hfunc2_apply, if_pos ⟨h1, h2⟩, if_pos hr]
    · rw [get_needed_hfunc2_apply, if_pos ⟨h1, h2⟩, if_neg (by omega), if_pos rfl,
        hfunc2DiagEntry]
      simp [List.any_eq_true, List.mem_range, Bool.and_eq_true, decide_eq_true_eq]
    · intro r hr1 hr2
      rw [get_needed_hfunc2_apply, if_pos ⟨h1, h2⟩, if_neg (by omega), if_neg (by omega)]
  · intro r hr c hc1 hc2
    rw [get_needed_hfunc2_apply, if_neg (by omega), if_neg (by omega)]

theorem C3_witness :
    get_needed_hfunc2 4 mEx4 0 0 = decide ((0 : Nat) < 4 - 1) ∧
    get_needed_hfunc2 4 mEx4 0 1 = true :=
  ⟨(C3_hfunc2_rule 4 mEx4 (by decide)).1 0 (by decide),
   ((C3_hfunc2_rule 4 mEx4 (by decide)).2.1 1 (by decide) (by decide)).1 0 (by decide)⟩

/-! ### The `relabel_one` contract -/

/-- C9 counterexample: with a `new_labels` vector containing `0`,
`relabel_one` returns the sentinel `0` even though the looked-up value
does occur in `old_labels`, so "returns 0 if and only if the value occurs
nowhere in `old_labels`" fails for arbitrary equal-length label vectors. -/
theorem C9_counterexample :
    ¬((relabel_one 5 [5] [0] = 0) ↔
      (∀ k, k < ([5] : List Int).length → ([5] : List Int).getD k 0 ≠ 5)) := by
  decide

/-- C9 (amended): `relabel_one` returns the entry of `new_labels`
co-indexed with the first occurrence of `x` in `old_labels`, and the
sentinel `0` when `x` occurs nowhere (no error is signaled in that case);
the "returns 0 if and only if not found" reading holds additionally
whenever every entry of `new_labels` is nonzero, as for the `1..d` label
vectors this program uses. -/
theorem C9_relabel_one_first_match (x : Int) (old new : List Int)
    (h : old.length = new.length) :
    (∀ k, k < old.length → old.getD k 0 = x → (∀ j, j < k → old.getD j 0 ≠ x) →
      relabel_one x old new = new.getD k 0) ∧
    ((∀ k, k < old.length → old.getD k 0 ≠ x) → relabel_one x old new = 0) ∧
    ((∀ k, k < new.length → new.getD k 0 ≠ 0) →
      ((relabel_one x old new = 0) ↔ (∀ k, k < old.length → old.getD k 0 ≠ x))) := by
  refine ⟨?_, ?_, ?_⟩
  · intro k hk hx hfirst
    exact relabel_one_eq_of_first old new h x k hk hx hfirst
  · intro hno
    exact relabel_one_eq_zero old new x hno
  · intro hnz
    constructor
    · intro h0
      rcases relabel_one_cases old new h x with ⟨hno, _⟩ | ⟨k, hk, hx, hfirst, hval⟩
      · exact hno
      · exact absurd (by rw [← hval]; exact h0) (hnz k (by omega))
    · intro hno
      exact relabel_one_eq_zero old new x hno

theorem C9_witness : relabel_one 1 [3, 1, 2] [3, 2, 1] = 2 :=
  (C9_relabel_one_first_match 1 [3, 1, 2] [3, 2, 1] (by decide)).1 1 (by decide)
    (by decide) (by decide)
